import Mathlib

/-!
A verification development for the MQTT 3.1.1 adapter of the subject-based
pub/sub server (source file server/mqtt.go).  Go byte slices holding topic
and subject names are embedded as List Char (the conversion code treats
each byte independently and compares it against fixed ASCII characters);
numeric machine words (uint16, byte) are embedded as Nat with explicit
truncation (mod 65536, mod 256) where the Go code can overflow; Go maps are
embedded as association lists whose insert removes any previous binding of
the key, matching map semantics; fallible Go functions returning an error
are embedded with Except.
-/

deriving instance DecidableEq for Except

namespace MqttVerify

/-! ### Constants from server/mqtt.go (const block) -/

def mqttPacketPub : Nat := 0x30
def mqttPacketPubAck : Nat := 0x40
def mqttPacketSubAck : Nat := 0x90
def mqttPacketConnectAck : Nat := 0x20
def mqttConnFlagCleanSession : Nat := 0x2
def mqttPubFlagRetain : Nat := 0x01
def mqttPubFlagQoS : Nat := 0x06
def mqttPubQos1 : Nat := 0x2
def mqttSubAckFailure : Nat := 0x80
def mqttConnAckRCIdentifierRejected : Nat := 0x2

def mqttTopicLevelSep : Char := '/'
def mqttSingleLevelWC : Char := '+'
def mqttMultiLevelWC : Char := '#'

/-- The NATS subject token separator, a host-broker constant defined outside
the MQTT source file.  Modelled from the spec: subjects are the host
broker's "dot-separated subject grammar", so btsep is the dot. -/
def btsep : Char := '.'

/-- The host broker's single-level wildcard token, defined outside the MQTT
source file.  Modelled from the spec: the MQTT single-level wildcard maps to
"the broker's single-level wildcard token" (the star of the NATS grammar). -/
def pwc : Char := '*'

/-- The host broker's multi-level wildcard token, defined outside the MQTT
source file.  Modelled from the spec: a filter such as foo/# translates to
foo.> , so fwc is the right angle character. -/
def fwc : Char := '>'

/-! ### Topic to subject conversion (mqttToNATSSubjectConversion)

The Go loop walks the topic with a read index i and a write index j.  At
each position it writes a short chunk and advances j by that chunk's
length: position 0 holding a slash writes "/." ; the last position holding
a slash (when not position 0) writes "./" ; every other position writes a
single character.  The function below produces the chunk for one position;
the loop is the concatenation of the chunks in order. -/

def mqttConvChunk (wcOk : Bool) (isFirst isLast : Bool) (c : Char) : Except String (List Char) :=
  if c = btsep then .ok [mqttTopicLevelSep]
  else if c = mqttTopicLevelSep then
    if isFirst then .ok [mqttTopicLevelSep, btsep]
    else if isLast then .ok [btsep, mqttTopicLevelSep]
    else .ok [btsep]
  else if c = ' ' then .ok ['_']
  else if c = mqttSingleLevelWC then
    if wcOk then .ok [pwc] else .error ("wildcards not allowed in publish topic")
  else if c = mqttMultiLevelWC then
    if wcOk then .ok [fwc] else .error ("wildcards not allowed in publish topic")
  else .ok [c]

/-- The conversion loop of mqttToNATSSubjectConversion: isFirst is true
exactly for the head position, isLast exactly when the rest is empty. -/
def mqttConvLoop (wcOk : Bool) (isFirst : Bool) : List Char → Except String (List Char)
  | [] => .ok []
  | c :: rest => do
      let chunk ← mqttConvChunk wcOk isFirst rest.isEmpty c
      let tail ← mqttConvLoop wcOk false rest
      pure (chunk ++ tail)

/-- mqttToNATSSubjectConversion (mqtt.go): converts an MQTT topic name or
filter to a NATS subject.  The returned Bool is the newSlice flag of the
source: a fresh buffer is allocated exactly when the topic starts or ends
with a slash (and is not the single-character topic "/"). -/
def mqttToNATSSubjectConversion (mt : List Char) (wcOk : Bool) : Except String (Bool × List Char) :=
  if mt = [mqttTopicLevelSep] then .ok (false, mt)
  else do
    let res ← mqttConvLoop wcOk true mt
    pure (decide (mt.head? = some mqttTopicLevelSep) || decide (mt.getLast? = some mqttTopicLevelSep), res)

/-- mqttTopicToNATSPubSubject (mqtt.go): topic-name conversion, wildcards rejected. -/
def mqttTopicToNATSPubSubject (mt : List Char) : Except String (Bool × List Char) :=
  mqttToNATSSubjectConversion mt false

/-- mqttFilterToNATSSubject (mqtt.go): topic-filter conversion, wildcards allowed. -/
def mqttFilterToNATSSubject (filter : List Char) : Except String (Bool × List Char) :=
  mqttToNATSSubjectConversion filter true

/-! ### Subject to topic conversion (mqttFromNATSPubSubject) -/

/-- The character rewrite of the loop of mqttFromNATSPubSubject. -/
def mqttUnconvChar (c : Char) : Char :=
  if c = mqttTopicLevelSep then btsep
  else if c = btsep then mqttTopicLevelSep
  else if c = '_' then ' '
  else c

/-- Index-tracking map: applies f at each position, indices counted from k. -/
def mqttMapIdx (f : Nat → Char → Char) : Nat → List Char → List Char
  | _, [] => []
  | k, c :: rest => f k c :: mqttMapIdx f (k + 1) rest

/-- mqttFromNATSPubSubject (mqtt.go): converts a NATS subject back to an
MQTT topic.  The source trims the special leading "/." (restoring a leading
slash at index 0 and starting the rewrite loop at index 1) and the special
trailing "./" (dropping the last byte, overwriting the new last byte with a
slash and stopping the rewrite loop before it); both trims are guarded by
the length of the original subject being greater than 2 and test the
original subject string.  The rewrite loop runs over indices in
[start, stop). -/
def mqttFromNATSPubSubject (subject : List Char) : List Char :=
  if subject = [mqttTopicLevelSep] then subject
  else
    let hasPre := decide (subject.length > 2) && decide (subject.take 2 = [mqttTopicLevelSep, btsep])
    let hasSuf := decide (subject.length > 2) && decide (subject.drop (subject.length - 2) = [btsep, mqttTopicLevelSep])
    let topic1 := if hasPre then mqttTopicLevelSep :: subject.drop 2 else subject
    let topic2 := if hasSuf then topic1.dropLast.dropLast ++ [mqttTopicLevelSep] else topic1
    let start := if hasPre then 1 else 0
    let stop := if hasSuf then topic2.length - 1 else topic2.length
    mqttMapIdx (fun i c => if start ≤ i ∧ i < stop then mqttUnconvChar c else c) 0 topic2

/-! ### Round-trip analysis: helper facts about the character rewrites -/

/-- The per-character topic-to-subject rewrite at a non-edge position. -/
def mqttConvChar (c : Char) : Char :=
  if c = btsep then mqttTopicLevelSep
  else if c = mqttTopicLevelSep then btsep
  else if c = ' ' then '_'
  else if c = mqttSingleLevelWC then pwc
  else if c = mqttMultiLevelWC then fwc
  else c

lemma mqttConvChunk_eval_basic (wc first last : Bool) (c : Char)
    (hs : c ≠ mqttTopicLevelSep) (hp : c ≠ mqttSingleLevelWC) (hm : c ≠ mqttMultiLevelWC) :
    mqttConvChunk wc first last c = .ok [mqttConvChar c] := by
  unfold mqttConvChunk mqttConvChar
  split_ifs <;> simp_all [btsep, mqttTopicLevelSep, mqttSingleLevelWC, mqttMultiLevelWC, pwc, fwc]

lemma mqttConvChunk_eval_slash_first (wc last : Bool) :
    mqttConvChunk wc true last mqttTopicLevelSep = .ok [mqttTopicLevelSep, btsep] := by
  unfold mqttConvChunk
  split_ifs <;> simp_all [btsep, mqttTopicLevelSep, mqttSingleLevelWC, mqttMultiLevelWC, pwc, fwc]

lemma mqttConvChunk_eval_slash_mid (wc : Bool) :
    mqttConvChunk wc false false mqttTopicLevelSep = .ok [btsep] := by
  unfold mqttConvChunk
  split_ifs <;> simp_all [btsep, mqttTopicLevelSep, mqttSingleLevelWC, mqttMultiLevelWC, pwc, fwc]

lemma mqttConvChunk_eval_slash_last (wc : Bool) :
    mqttConvChunk wc false true mqttTopicLevelSep = .ok [btsep, mqttTopicLevelSep] := by
  unfold mqttConvChunk
  split_ifs <;> simp_all [btsep, mqttTopicLevelSep, mqttSingleLevelWC, mqttMultiLevelWC, pwc, fwc]

lemma mqttConvChar_mqttUnconvChar (c : Char)
    (h1 : c ≠ ' ') (h2 : c ≠ mqttSingleLevelWC) (h3 : c ≠ mqttMultiLevelWC) :
    mqttConvChar (mqttUnconvChar c) = c := by
  unfold mqttUnconvChar mqttConvChar
  split_ifs <;> simp_all [btsep, mqttTopicLevelSep, mqttSingleLevelWC, mqttMultiLevelWC, pwc, fwc]

lemma mqttUnconvChar_ne_wc (c : Char)
    (h2 : c ≠ mqttSingleLevelWC) (h3 : c ≠ mqttMultiLevelWC) :
    mqttUnconvChar c ≠ mqttSingleLevelWC ∧ mqttUnconvChar c ≠ mqttMultiLevelWC := by
  unfold mqttUnconvChar
  split_ifs <;> simp_all [btsep, mqttTopicLevelSep, mqttSingleLevelWC, mqttMultiLevelWC, pwc, fwc]

lemma mqttUnconvChar_eq_slash_iff (c : Char) :
    mqttUnconvChar c = mqttTopicLevelSep ↔ c = btsep := by
  unfold mqttUnconvChar
  split_ifs <;> simp_all [btsep, mqttTopicLevelSep, mqttSingleLevelWC, mqttMultiLevelWC, pwc, fwc]

@[simp] lemma exceptBindOk {α β : Type} (a : α) (f : α → Except String β) :
    (Except.ok a >>= f : Except String β) = f a := rfl

@[simp] lemma exceptBindErr {α β : Type} (e : String) (f : α → Except String β) :
    (Except.error e >>= f : Except String β) = Except.error e := rfl

lemma headAppendLeft {α : Type} (y z : List α) (h : y ≠ []) : (y ++ z).head? = y.head? := by
  cases y <;> simp_all

lemma getLastAppendRight {α : Type} (y z : List α) (h : z ≠ []) :
    (y ++ z).getLast? = z.getLast? := by
  induction y with
  | nil => simp
  | cons a y ih =>
      cases y with
      | nil => cases z with
        | nil => simp_all
        | cons b z => simp [List.getLast?_cons_cons]
      | cons a' y' =>
        rw [List.cons_append, List.cons_append, List.getLast?_cons_cons]
        simpa using ih

/-! ### Round-trip analysis: evaluating the conversion loop -/

/-- The conversion loop on input without wildcard characters, whose head is
not a slash when in first position and whose last character is not a slash,
is the plain character map. -/
lemma mqttConvLoop_eval_basic (wc : Bool) (L : List Char) :
    ∀ (first : Bool),
    (∀ x ∈ L, x ≠ mqttSingleLevelWC ∧ x ≠ mqttMultiLevelWC) →
    (first = true → L.head? ≠ some mqttTopicLevelSep) →
    L.getLast? ≠ some mqttTopicLevelSep →
    mqttConvLoop wc first L = .ok (L.map mqttConvChar) := by
  induction L with
  | nil => intro first _ _ _; simp [mqttConvLoop]
  | cons c rest ih =>
      intro first hmem hh hl
      cases rest with
      | nil =>
          have hc : c ≠ mqttTopicLevelSep := by
            intro h; exact hl (by simp [h])
          obtain ⟨h2, h3⟩ := hmem c (by simp)
          simp [mqttConvLoop, mqttConvChunk_eval_basic wc first true c hc h2 h3]
      | cons d rest' =>
          have hlr : (d :: rest').getLast? ≠ some mqttTopicLevelSep := by
            rw [List.getLast?_cons_cons] at hl; exact hl
          have hchunk : mqttConvChunk wc first (d :: rest').isEmpty c = .ok [mqttConvChar c] := by
            by_cases hc : c = mqttTopicLevelSep
            · subst hc
              cases first with
              | true => exact absurd (by simp) (hh rfl)
              | false =>
                  have : mqttConvChar mqttTopicLevelSep = btsep := by decide
                  simpa [this] using mqttConvChunk_eval_slash_mid wc
            · obtain ⟨h2, h3⟩ := hmem c (by simp)
              exact mqttConvChunk_eval_basic wc first _ c hc h2 h3
          have htail := ih false (fun x hx => hmem x (by simp [hx])) (by simp) hlr
          rw [mqttConvLoop, hchunk, htail]
          simp

/-- The conversion loop on input ending in a slash (with no wildcard
characters before it, and a head that is neither a slash nor empty when in
first position) maps the prefix and expands the final slash to "./" . -/
lemma mqttConvLoop_eval_slash_last (wc : Bool) (L : List Char) :
    ∀ (first : Bool),
    (∀ x ∈ L, x ≠ mqttSingleLevelWC ∧ x ≠ mqttMultiLevelWC) →
    (first = true → L ≠ [] ∧ L.head? ≠ some mqttTopicLevelSep) →
    mqttConvLoop wc first (L ++ [mqttTopicLevelSep]) =
      .ok (L.map mqttConvChar ++ [btsep, mqttTopicLevelSep]) := by
  induction L with
  | nil =>
      intro first _ hh
      cases first with
      | true => exact absurd rfl (hh rfl).1
      | false => simp [mqttConvLoop, mqttConvChunk_eval_slash_last wc]
  | cons c rest ih =>
      intro first hmem hh
      have hne : (rest ++ [mqttTopicLevelSep]).isEmpty = false := by
        cases rest <;> simp
      have hchunk : mqttConvChunk wc first (rest ++ [mqttTopicLevelSep]).isEmpty c
          = .ok [mqttConvChar c] := by
        by_cases hc : c = mqttTopicLevelSep
        · subst hc
          cases first with
          | true => exact absurd (by simp) (hh rfl).2
          | false =>
              have : mqttConvChar mqttTopicLevelSep = btsep := by decide
              rw [hne]
              simpa [this] using mqttConvChunk_eval_slash_mid wc
        · obtain ⟨h2, h3⟩ := hmem c (by simp)
          exact mqttConvChunk_eval_basic wc first _ c hc h2 h3
      have htail := ih false (fun x hx => hmem x (by simp [hx])) (by simp)
      rw [List.cons_append, mqttConvLoop, hchunk, htail]
      simp

/-! ### Round-trip analysis: what a successful conversion can produce -/

/-- Any chunk a successful conversion emits avoids space and the MQTT
wildcard characters; it is nonempty; the first chunk never starts with a
dot; the last chunk never ends with a dot (ruling out the first-and-last
slash chunk, which cannot arise since the one-character topic "/" is
special-cased before the loop). -/
lemma mqttConvChunk_image (wc first last : Bool) (c : Char) (y : List Char)
    (h : mqttConvChunk wc first last c = .ok y)
    (hfl : first = true → last = true → c ≠ mqttTopicLevelSep) :
    (∀ ch ∈ y, ch ≠ ' ' ∧ ch ≠ mqttSingleLevelWC ∧ ch ≠ mqttMultiLevelWC)
  ∧ y ≠ []
  ∧ (first = true → y.head? ≠ some btsep)
  ∧ (last = true → y.getLast? ≠ some btsep) := by
  unfold mqttConvChunk at h
  split_ifs at h with h1 h2 h3 h4 h5 h6 h7 h8 h9
  all_goals first
  | (cases h
     refine ⟨?_, by simp, ?_, ?_⟩ <;>
       simp_all [btsep, mqttTopicLevelSep, mqttSingleLevelWC, mqttMultiLevelWC, pwc, fwc] <;>
       intro hch <;> simp_all)
  | (exfalso
     exact hfl (by simp_all) (by simp_all) h2)
  | cases h

lemma mqttConvLoop_image (wc : Bool) (L : List Char) :
    ∀ (first : Bool) (X : List Char),
    mqttConvLoop wc first L = .ok X →
    (first = true → L ≠ [mqttTopicLevelSep]) →
    (∀ ch ∈ X, ch ≠ ' ' ∧ ch ≠ mqttSingleLevelWC ∧ ch ≠ mqttMultiLevelWC)
  ∧ (L ≠ [] → X ≠ [])
  ∧ (first = true → X.head? ≠ some btsep)
  ∧ X.getLast? ≠ some btsep := by
  induction L with
  | nil =>
      intro first X h _
      rw [mqttConvLoop] at h
      cases h
      simp
  | cons c rest ih =>
      intro first X h hone
      rw [mqttConvLoop] at h
      cases hc : mqttConvChunk wc first rest.isEmpty c with
      | error e => rw [hc] at h; cases h
      | ok y =>
          rw [hc] at h
          cases hr : mqttConvLoop wc false rest with
          | error e => rw [hr] at h; cases h
          | ok X' =>
              rw [hr] at h
              simp only [exceptBindOk] at h
              have hX : X = y ++ X' := by
                cases h; rfl
              subst hX
              have hfl : first = true → rest.isEmpty = true → c ≠ mqttTopicLevelSep := by
                intro hf he hcs
                cases rest with
                | nil => exact hone hf (by rw [hcs])
                | cons a b => simp at he
              obtain ⟨hcar, hyne, hyhd, hylast⟩ := mqttConvChunk_image wc first rest.isEmpty c y hc hfl
              obtain ⟨hcar', hne', hhd', hlast'⟩ := ih false X' hr (by simp)
              refine ⟨?_, ?_, ?_, ?_⟩
              · intro ch hch
                rcases List.mem_append.mp hch with hin | hin
                · exact hcar ch hin
                · exact hcar' ch hin
              · intro _
                cases y with
                | nil => exact absurd rfl hyne
                | cons _ _ => simp
              · intro hf
                rw [headAppendLeft y X' hyne]
                exact hyhd hf
              · cases hrest : rest with
                | nil =>
                    subst hrest
                    rw [mqttConvLoop] at hr
                    cases hr
                    rw [List.append_nil]
                    exact hylast (by simp)
                | cons a b =>
                    have hXne : X' ≠ [] := hne' (by simp [hrest])
                    rw [getLastAppendRight y X' hXne]
                    exact hlast'

/-- What a successful topic-to-subject conversion of a nonempty topic can
produce: a subject free of spaces and MQTT wildcard characters that neither
starts nor ends with a dot. -/
lemma mqttToNATSSubjectConversion_image (wc : Bool) (T : List Char) (cp : Bool) (S : List Char)
    (hne : T ≠ [])
    (h : mqttToNATSSubjectConversion T wc = .ok (cp, S)) :
    (∀ ch ∈ S, ch ≠ ' ' ∧ ch ≠ mqttSingleLevelWC ∧ ch ≠ mqttMultiLevelWC)
  ∧ S.head? ≠ some btsep
  ∧ S.getLast? ≠ some btsep := by
  unfold mqttToNATSSubjectConversion at h
  split_ifs at h with hT
  · cases h
    subst hT
    refine ⟨?_, by decide, by decide⟩
    intro ch hch
    simp at hch
    subst hch
    refine ⟨by decide, by decide, by decide⟩
  · cases hl : mqttConvLoop wc true T with
    | error e => rw [hl] at h; cases h
    | ok X =>
        rw [hl] at h
        simp only [exceptBindOk] at h
        have hXS : X = S := by cases h; rfl
        subst hXS
        obtain ⟨h1, _, h3, h4⟩ := mqttConvLoop_image wc T true X hl (fun _ => hT)
        exact ⟨h1, h3 rfl, h4⟩

/-! ### Round-trip analysis: evaluating the inverse conversion -/

lemma mqttMapIdx_congr_map (f : Nat → Char → Char) (g0 : Char → Char) (L : List Char) :
    ∀ (k : Nat), (∀ i c, i < L.length → f (k + i) c = g0 c) →
    mqttMapIdx f k L = L.map g0 := by
  induction L with
  | nil => intro k _; rw [mqttMapIdx]; simp
  | cons c rest ih =>
      intro k hf
      rw [mqttMapIdx, List.map_cons]
      have h0 : f k c = g0 c := by
        have := hf 0 c (by simp)
        simpa using this
      rw [h0, ih (k + 1)]
      intro i c hi
      have := hf (i + 1) c (by simpa using Nat.succ_lt_succ hi)
      rw [show k + 1 + i = k + (i + 1) by omega]
      exact this

lemma mqttMapIdx_append (f : Nat → Char → Char) (L1 L2 : List Char) :
    ∀ (k : Nat),
    mqttMapIdx f k (L1 ++ L2) = mqttMapIdx f k L1 ++ mqttMapIdx f (k + L1.length) L2 := by
  induction L1 with
  | nil => intro k; rw [mqttMapIdx]; simp
  | cons c rest ih =>
      intro k
      rw [List.cons_append, mqttMapIdx, mqttMapIdx, ih (k + 1)]
      simp [List.cons_append]
      rw [show k + 1 + rest.length = k + (rest.length + 1) by omega]

/-- mqttFromNATSPubSubject with neither special trim is the plain inverse
character map. -/
lemma fromSubject_no_trim (S : List Char) (hS : S ≠ [mqttTopicLevelSep])
    (hpre : ¬(S.length > 2 ∧ S.take 2 = [mqttTopicLevelSep, btsep]))
    (hsuf : ¬(S.length > 2 ∧ S.drop (S.length - 2) = [btsep, mqttTopicLevelSep])) :
    mqttFromNATSPubSubject S = S.map mqttUnconvChar := by
  have h1 : (decide (S.length > 2) && decide (S.take 2 = [mqttTopicLevelSep, btsep])) = false := by
    by_cases hA : S.length > 2
    · have hB : ¬ S.take 2 = [mqttTopicLevelSep, btsep] := fun hB => hpre ⟨hA, hB⟩
      simp [hB]
    · simp [hA]
  have h2 : (decide (S.length > 2) && decide (S.drop (S.length - 2) = [btsep, mqttTopicLevelSep])) = false := by
    by_cases hA : S.length > 2
    · have hB : ¬ S.drop (S.length - 2) = [btsep, mqttTopicLevelSep] := fun hB => hsuf ⟨hA, hB⟩
      simp [hB]
    · simp [hA]
  unfold mqttFromNATSPubSubject
  rw [if_neg hS]
  simp only [h1, h2, Bool.false_eq_true, if_false]
  apply mqttMapIdx_congr_map
  intro i c hi
  simp only [Nat.zero_add]
  rw [if_pos]
  exact ⟨Nat.zero_le i, hi⟩

/-- mqttFromNATSPubSubject with only the leading trim: the restored leading
slash followed by the inverse character map of the remainder. -/
lemma fromSubject_pre_only (R : List Char) (hR : R ≠ [])
    (hsuf : ¬((mqttTopicLevelSep :: btsep :: R).length > 2 ∧
        (mqttTopicLevelSep :: btsep :: R).drop ((mqttTopicLevelSep :: btsep :: R).length - 2)
          = [btsep, mqttTopicLevelSep])) :
    mqttFromNATSPubSubject (mqttTopicLevelSep :: btsep :: R)
      = mqttTopicLevelSep :: R.map mqttUnconvChar := by
  have hlen : (mqttTopicLevelSep :: btsep :: R).length > 2 := by
    cases R with
    | nil => exact absurd rfl hR
    | cons a b => simp
  have h1 : (decide ((mqttTopicLevelSep :: btsep :: R).length > 2) &&
      decide ((mqttTopicLevelSep :: btsep :: R).take 2 = [mqttTopicLevelSep, btsep])) = true := by
    rw [decide_eq_true hlen, decide_eq_true (by rfl : (mqttTopicLevelSep :: btsep :: R).take 2
      = [mqttTopicLevelSep, btsep])]
    rfl
  have h2 : (decide ((mqttTopicLevelSep :: btsep :: R).length > 2) &&
      decide ((mqttTopicLevelSep :: btsep :: R).drop ((mqttTopicLevelSep :: btsep :: R).length - 2)
        = [btsep, mqttTopicLevelSep])) = false := by
    have hB : ¬ (mqttTopicLevelSep :: btsep :: R).drop ((mqttTopicLevelSep :: btsep :: R).length - 2)
        = [btsep, mqttTopicLevelSep] := fun hB => hsuf ⟨hlen, hB⟩
    rw [decide_eq_false hB, Bool.and_false]
  unfold mqttFromNATSPubSubject
  rw [if_neg (by simp)]
  simp only [h1, h2, Bool.false_eq_true, if_false, if_true, List.drop_succ_cons, List.drop_zero]
  rw [mqttMapIdx]
  rw [if_neg (by omega)]
  congr 1
  apply mqttMapIdx_congr_map
  intro i c hi
  rw [if_pos]
  constructor
  · omega
  · simp only [List.length_cons]
    omega

/-- mqttFromNATSPubSubject with only the trailing trim: the inverse
character map of the prefix followed by the restored trailing slash. -/
lemma fromSubject_suf_only (R : List Char) (hR : R ≠ [])
    (hpre : ¬((R ++ [btsep, mqttTopicLevelSep]).length > 2 ∧
        (R ++ [btsep, mqttTopicLevelSep]).take 2 = [mqttTopicLevelSep, btsep])) :
    mqttFromNATSPubSubject (R ++ [btsep, mqttTopicLevelSep])
      = R.map mqttUnconvChar ++ [mqttTopicLevelSep] := by
  have hlen : (R ++ [btsep, mqttTopicLevelSep]).length > 2 := by
    cases R with
    | nil => exact absurd rfl hR
    | cons a b =>
        simp only [List.length_append, List.length_cons, List.length_nil]
        omega
  have hSne : (R ++ [btsep, mqttTopicLevelSep] : List Char) ≠ [mqttTopicLevelSep] := by
    intro h
    have := congrArg List.length h
    simp at this
  have hdrop : (R ++ [btsep, mqttTopicLevelSep]).drop ((R ++ [btsep, mqttTopicLevelSep]).length - 2)
      = [btsep, mqttTopicLevelSep] := by
    have : (R ++ [btsep, mqttTopicLevelSep]).length - 2 = R.length := by simp
    rw [this]
    exact List.drop_left R [btsep, mqttTopicLevelSep]
  have h1 : (decide ((R ++ [btsep, mqttTopicLevelSep]).length > 2) &&
      decide ((R ++ [btsep, mqttTopicLevelSep]).take 2 = [mqttTopicLevelSep, btsep])) = false := by
    have hB : ¬ (R ++ [btsep, mqttTopicLevelSep]).take 2 = [mqttTopicLevelSep, btsep] :=
      fun hB => hpre ⟨hlen, hB⟩
    rw [decide_eq_false hB, Bool.and_false]
  have h2 : (decide ((R ++ [btsep, mqttTopicLevelSep]).length > 2) &&
      decide ((R ++ [btsep, mqttTopicLevelSep]).drop ((R ++ [btsep, mqttTopicLevelSep]).length - 2)
        = [btsep, mqttTopicLevelSep])) = true := by
    rw [decide_eq_true hlen, decide_eq_true hdrop]
    rfl
  have hdl : (R ++ [btsep, mqttTopicLevelSep]).dropLast.dropLast = R := by
    rw [show (R ++ [btsep, mqttTopicLevelSep]) = (R ++ [btsep]) ++ [mqttTopicLevelSep] by simp]
    rw [List.dropLast_concat, List.dropLast_concat]
  unfold mqttFromNATSPubSubject
  rw [if_neg hSne]
  simp only [h1, h2, Bool.false_eq_true, if_false, if_true, hdl]
  rw [mqttMapIdx_append]
  congr 1
  · apply mqttMapIdx_congr_map
    intro i c hi
    rw [if_pos]
    refine ⟨Nat.zero_le _, ?_⟩
    simp only [Nat.zero_add, List.length_append, List.length_cons]
    omega
  · rw [mqttMapIdx, mqttMapIdx]
    rw [if_neg (by
      simp only [List.length_append, List.length_cons, List.length_nil, Nat.zero_add]
      omega)]

/-- mqttFromNATSPubSubject with both trims: restored slashes at both ends
around the inverse character map of the middle. -/
lemma fromSubject_both (M : List Char) :
    mqttFromNATSPubSubject (mqttTopicLevelSep :: btsep :: (M ++ [btsep, mqttTopicLevelSep]))
      = mqttTopicLevelSep :: (M.map mqttUnconvChar ++ [mqttTopicLevelSep]) := by
  have hlen : (mqttTopicLevelSep :: btsep :: (M ++ [btsep, mqttTopicLevelSep])).length > 2 := by
    simp
  have hdrop : (mqttTopicLevelSep :: btsep :: (M ++ [btsep, mqttTopicLevelSep])).drop
      ((mqttTopicLevelSep :: btsep :: (M ++ [btsep, mqttTopicLevelSep])).length - 2)
      = [btsep, mqttTopicLevelSep] := by
    rw [show (mqttTopicLevelSep :: btsep :: (M ++ [btsep, mqttTopicLevelSep]))
        = (mqttTopicLevelSep :: btsep :: M) ++ [btsep, mqttTopicLevelSep] by simp]
    have : ((mqttTopicLevelSep :: btsep :: M) ++ [btsep, mqttTopicLevelSep]).length - 2
        = (mqttTopicLevelSep :: btsep :: M).length := by simp
    rw [this]
    exact List.drop_left _ _
  have h1 : (decide ((mqttTopicLevelSep :: btsep :: (M ++ [btsep, mqttTopicLevelSep])).length > 2) &&
      decide ((mqttTopicLevelSep :: btsep :: (M ++ [btsep, mqttTopicLevelSep])).take 2
        = [mqttTopicLevelSep, btsep])) = true := by
    simp
  have h2 : (decide ((mqttTopicLevelSep :: btsep :: (M ++ [btsep, mqttTopicLevelSep])).length > 2) &&
      decide ((mqttTopicLevelSep :: btsep :: (M ++ [btsep, mqttTopicLevelSep])).drop
        ((mqttTopicLevelSep :: btsep :: (M ++ [btsep, mqttTopicLevelSep])).length - 2)
        = [btsep, mqttTopicLevelSep])) = true := by
    simp only [hdrop, hlen]
    simp
  have hdl : (mqttTopicLevelSep :: (M ++ [btsep, mqttTopicLevelSep])).dropLast.dropLast
      = mqttTopicLevelSep :: M := by
    rw [show (mqttTopicLevelSep :: (M ++ [btsep, mqttTopicLevelSep]))
        = ((mqttTopicLevelSep :: M) ++ [btsep]) ++ [mqttTopicLevelSep] by simp]
    rw [List.dropLast_concat, List.dropLast_concat]
  unfold mqttFromNATSPubSubject
  rw [if_neg (by simp)]
  simp only [h1, h2, if_true, List.drop_succ_cons, List.drop_zero, hdl]
  rw [show ((mqttTopicLevelSep :: M) ++ [mqttTopicLevelSep] : List Char)
      = mqttTopicLevelSep :: (M ++ [mqttTopicLevelSep]) by simp] at *
  rw [mqttMapIdx]
  rw [if_neg (by omega)]
  congr 1
  rw [mqttMapIdx_append]
  congr 1
  · apply mqttMapIdx_congr_map
    intro i c hi
    rw [if_pos]
    refine ⟨by omega, ?_⟩
    simp only [List.length_cons, List.length_append]
    omega
  · rw [mqttMapIdx, mqttMapIdx]
    rw [if_neg (by
      simp only [List.length_append, List.length_cons, List.length_nil, Nat.zero_add]
      omega)]

/-! ### Round-trip analysis: assembling the fixed-point theorem -/

lemma headMap (f : Char → Char) (L : List Char) : (L.map f).head? = L.head?.map f := by
  cases L <;> simp

lemma getLastMap (f : Char → Char) (L : List Char) : (L.map f).getLast? = L.getLast?.map f := by
  induction L with
  | nil => simp
  | cons c rest ih =>
      cases rest with
      | nil => simp
      | cons d rest' =>
          rw [List.map_cons, List.map_cons, List.getLast?_cons_cons, ← List.map_cons, ih,
            List.getLast?_cons_cons]

lemma headTake (k : Nat) (L : List Char) (hk : k ≠ 0) : (L.take k).head? = L.head? := by
  cases L <;> cases k <;> simp_all [List.take]

lemma map_conv_unconv (L : List Char)
    (hA : ∀ ch ∈ L, ch ≠ ' ' ∧ ch ≠ mqttSingleLevelWC ∧ ch ≠ mqttMultiLevelWC) :
    (L.map mqttUnconvChar).map mqttConvChar = L := by
  induction L with
  | nil => simp
  | cons c rest ih =>
      simp only [List.map_cons]
      rw [mqttConvChar_mqttUnconvChar c (hA c (by simp)).1 (hA c (by simp)).2.1
        (hA c (by simp)).2.2]
      rw [ih (fun ch hch => hA ch (by simp [hch]))]

lemma mem_map_unconv_ne_wc (L : List Char)
    (hA : ∀ ch ∈ L, ch ≠ ' ' ∧ ch ≠ mqttSingleLevelWC ∧ ch ≠ mqttMultiLevelWC) :
    ∀ x ∈ L.map mqttUnconvChar, x ≠ mqttSingleLevelWC ∧ x ≠ mqttMultiLevelWC := by
  intro x hx
  obtain ⟨c, hc, rfl⟩ := List.mem_map.mp hx
  exact mqttUnconvChar_ne_wc c (hA c hc).2.1 (hA c hc).2.2

lemma getLastConsCons (a b : Char) (L : List Char) (h : L ≠ []) :
    (a :: b :: L).getLast? = L.getLast? := by
  obtain ⟨c, L', rfl⟩ := List.exists_cons_of_ne_nil h
  rw [List.getLast?_cons_cons, List.getLast?_cons_cons]

lemma eq_cons_cons_of_take2 (S : List Char) (a b : Char) (h : S.take 2 = [a, b]) :
    S = a :: b :: S.drop 2 := by
  cases S with
  | nil => simp at h
  | cons x S' =>
      cases S' with
      | nil => simp at h
      | cons y S'' =>
          have h' : x :: y :: ([] : List Char) = [a, b] := by
            rw [← h]; rfl
          injection h' with h1 h2
          injection h2 with h3 h4
          subst h1; subst h3
          rfl

lemma eq_append_of_drop2 (L : List Char) (h : L.drop (L.length - 2) = [btsep, mqttTopicLevelSep]) :
    L = L.take (L.length - 2) ++ [btsep, mqttTopicLevelSep] := by
  conv_lhs => rw [← List.take_append_drop (L.length - 2) L]
  rw [h]

/-- The heart of the round trip: a subject that lies in the image shape of
the topic-to-subject conversion (no space or MQTT wildcard characters, no
dot at either end) and that is not the ambiguous subject "/./" is a fixed
point of converting back to a topic and to a subject again. -/
theorem mqttToFromSubject_fix (wc : Bool) (S : List Char)
    (hA : ∀ ch ∈ S, ch ≠ ' ' ∧ ch ≠ mqttSingleLevelWC ∧ ch ≠ mqttMultiLevelWC)
    (hh : S.head? ≠ some btsep)
    (hl : S.getLast? ≠ some btsep)
    (hx : S ≠ [mqttTopicLevelSep, btsep, mqttTopicLevelSep]) :
    ∃ cp, mqttToNATSSubjectConversion (mqttFromNATSPubSubject S) wc = .ok (cp, S) := by
  by_cases hS : S = [mqttTopicLevelSep]
  · subst hS
    refine ⟨false, ?_⟩
    rw [show mqttFromNATSPubSubject [mqttTopicLevelSep] = [mqttTopicLevelSep] from rfl]
    unfold mqttToNATSSubjectConversion
    rw [if_pos rfl]
  by_cases hP : S.length > 2 ∧ S.take 2 = [mqttTopicLevelSep, btsep]
  · by_cases hQ : S.length > 2 ∧ S.drop (S.length - 2) = [btsep, mqttTopicLevelSep]
    · -- both trims
      have hSd : S = mqttTopicLevelSep :: btsep :: S.drop 2 :=
        eq_cons_cons_of_take2 S _ _ hP.2
      rcases Nat.lt_or_ge S.length 4 with hn | hn
      · -- length 3 forces the excluded subject "/./"
        exfalso
        apply hx
        have h3 : S.length = 3 := by omega
        have hd1 : S.drop 1 = [btsep, mqttTopicLevelSep] := by
          have : S.length - 2 = 1 := by omega
          rw [← this]
          exact hQ.2
        rw [hSd]
        have : (mqttTopicLevelSep :: btsep :: S.drop 2).drop 1 = btsep :: S.drop 2 := rfl
        rw [hSd] at hd1
        rw [this] at hd1
        have := (List.cons_eq_cons.mp hd1).2
        simp [this]
      · -- length at least 4: middle decomposition
        have hlenR : (S.drop 2).length = S.length - 2 := by simp
        have hRdrop : (S.drop 2).drop ((S.drop 2).length - 2) = [btsep, mqttTopicLevelSep] := by
          have harg : (S.drop 2).drop ((S.drop 2).length - 2) = S.drop (S.length - 2) := by
            rw [List.drop_drop]
            congr 1
            simp only [List.length_drop]
            omega
          rw [harg]
          exact hQ.2
        have hRd : S.drop 2 = (S.drop 2).take ((S.drop 2).length - 2) ++ [btsep, mqttTopicLevelSep] :=
          eq_append_of_drop2 _ hRdrop
        set M : List Char := (S.drop 2).take ((S.drop 2).length - 2) with hM
        have hSM : S = mqttTopicLevelSep :: btsep :: (M ++ [btsep, mqttTopicLevelSep]) := by
          rw [hSd, ← hRd]
        have hAM : ∀ ch ∈ M, ch ≠ ' ' ∧ ch ≠ mqttSingleLevelWC ∧ ch ≠ mqttMultiLevelWC := by
          intro ch hch
          apply hA
          rw [hSM]
          simp [hch]
        rw [hSM, fromSubject_both M]
        unfold mqttToNATSSubjectConversion
        rw [if_neg (by simp)]
        have hloop : mqttConvLoop wc true
            (mqttTopicLevelSep :: (M.map mqttUnconvChar ++ [mqttTopicLevelSep]))
            = .ok ([mqttTopicLevelSep, btsep] ++ (M ++ [btsep, mqttTopicLevelSep])) := by
          rw [mqttConvLoop]
          have hie : (M.map mqttUnconvChar ++ [mqttTopicLevelSep]).isEmpty = false := by
            cases M.map mqttUnconvChar <;> simp
          rw [hie, mqttConvChunk_eval_slash_first wc false]
          rw [mqttConvLoop_eval_slash_last wc (M.map mqttUnconvChar) false
            (mem_map_unconv_ne_wc M hAM) (by simp)]
          rw [map_conv_unconv M hAM]
          simp
        rw [hloop]
        simp only [exceptBindOk]
        exact ⟨_, rfl⟩
    · -- leading trim only
      have hSd : S = mqttTopicLevelSep :: btsep :: S.drop 2 :=
        eq_cons_cons_of_take2 S _ _ hP.2
      have hRne : S.drop 2 ≠ [] := by
        intro h0
        have := congrArg List.length h0
        simp at this
        omega
      have hQ' : ¬((mqttTopicLevelSep :: btsep :: S.drop 2).length > 2 ∧
          (mqttTopicLevelSep :: btsep :: S.drop 2).drop
            ((mqttTopicLevelSep :: btsep :: S.drop 2).length - 2)
            = [btsep, mqttTopicLevelSep]) := by
        rw [← hSd]; exact hQ
      have hlast : (S.drop 2).getLast? ≠ some btsep := by
        rw [hSd, getLastConsCons _ _ _ hRne] at hl
        exact hl
      have hA2 : ∀ ch ∈ S.drop 2, ch ≠ ' ' ∧ ch ≠ mqttSingleLevelWC ∧ ch ≠ mqttMultiLevelWC := by
        intro ch hch
        apply hA
        rw [hSd]
        simp [hch]
      rw [hSd, fromSubject_pre_only (S.drop 2) hRne hQ']
      unfold mqttToNATSSubjectConversion
      rw [if_neg (by
        intro hbad
        exact hRne (by simpa using (List.cons_eq_cons.mp hbad).2))]
      have hloop : mqttConvLoop wc true (mqttTopicLevelSep :: (S.drop 2).map mqttUnconvChar)
          = .ok ([mqttTopicLevelSep, btsep] ++ S.drop 2) := by
        rw [mqttConvLoop]
        have hie : ((S.drop 2).map mqttUnconvChar).isEmpty = false := by
          cases hc : (S.drop 2).map mqttUnconvChar with
          | nil => exact absurd (by simpa using hc) hRne
          | cons a b => simp
        rw [hie, mqttConvChunk_eval_slash_first wc false]
        rw [mqttConvLoop_eval_basic wc ((S.drop 2).map mqttUnconvChar) false
          (mem_map_unconv_ne_wc _ hA2) (by simp)]
        · rw [map_conv_unconv _ hA2]
          simp
        · rw [getLastMap]
          intro hbad
          cases hlg : (S.drop 2).getLast? with
          | none => rw [hlg] at hbad; simp at hbad
          | some c =>
              rw [hlg] at hbad
              have hbad2 : some (mqttUnconvChar c) = some mqttTopicLevelSep := hbad
              have := (mqttUnconvChar_eq_slash_iff c).mp (by injection hbad2)
              exact hlast (by rw [hlg, this])
      rw [hloop]
      simp only [exceptBindOk]
      exact ⟨_, rfl⟩
  · by_cases hQ : S.length > 2 ∧ S.drop (S.length - 2) = [btsep, mqttTopicLevelSep]
    · -- trailing trim only
      have hSd : S = S.take (S.length - 2) ++ [btsep, mqttTopicLevelSep] :=
        eq_append_of_drop2 S hQ.2
      have hRne : S.take (S.length - 2) ≠ [] := by
        intro h0
        have := congrArg List.length h0
        simp at this
        omega
      have hP' : ¬((S.take (S.length - 2) ++ [btsep, mqttTopicLevelSep]).length > 2 ∧
          (S.take (S.length - 2) ++ [btsep, mqttTopicLevelSep]).take 2
            = [mqttTopicLevelSep, btsep]) := by
        rw [← hSd]; exact hP
      have hhead : (S.take (S.length - 2)).head? ≠ some btsep := by
        rw [headTake _ _ (by omega)]
        exact hh
      have hA2 : ∀ ch ∈ S.take (S.length - 2),
          ch ≠ ' ' ∧ ch ≠ mqttSingleLevelWC ∧ ch ≠ mqttMultiLevelWC := by
        intro ch hch
        exact hA ch (List.mem_of_mem_take hch)
      rw [hSd, fromSubject_suf_only (S.take (S.length - 2)) hRne hP']
      unfold mqttToNATSSubjectConversion
      rw [if_neg (by
        intro hbad
        have := congrArg List.length hbad
        simp at this
        exact hRne (List.eq_nil_of_length_eq_zero (by omega)))]
      have hloop : mqttConvLoop wc true
          ((S.take (S.length - 2)).map mqttUnconvChar ++ [mqttTopicLevelSep])
          = .ok (S.take (S.length - 2) ++ [btsep, mqttTopicLevelSep]) := by
        rw [mqttConvLoop_eval_slash_last wc _ true (mem_map_unconv_ne_wc _ hA2)]
        · rw [map_conv_unconv _ hA2]
        · intro _
          refine ⟨by simpa using hRne, ?_⟩
          rw [headMap]
          intro hbad
          cases hhg : (S.take (S.length - 2)).head? with
          | none => rw [hhg] at hbad; simp at hbad
          | some c =>
              rw [hhg] at hbad
              have hbad2 : some (mqttUnconvChar c) = some mqttTopicLevelSep := hbad
              have := (mqttUnconvChar_eq_slash_iff c).mp (by injection hbad2)
              exact hhead (by rw [hhg, this])
      rw [hloop]
      simp only [exceptBindOk]
      exact ⟨_, rfl⟩
    · -- no trims
      have hfrom := fromSubject_no_trim S hS hP hQ
      have hT'ne : S.map mqttUnconvChar ≠ [mqttTopicLevelSep] := by
        intro hmap
        cases S with
        | nil => simp at hmap
        | cons c S' =>
            cases S' with
            | nil =>
                simp only [List.map_cons, List.map_nil] at hmap
                have := (List.cons_eq_cons.mp hmap).1
                exact hh (by simp [(mqttUnconvChar_eq_slash_iff c).mp this])
            | cons d S'' => simp at hmap
      rw [hfrom]
      unfold mqttToNATSSubjectConversion
      rw [if_neg hT'ne]
      have hloop : mqttConvLoop wc true (S.map mqttUnconvChar) = .ok S := by
        rw [mqttConvLoop_eval_basic wc (S.map mqttUnconvChar) true
          (mem_map_unconv_ne_wc _ hA)]
        · rw [map_conv_unconv _ hA]
        · intro _
          rw [headMap]
          intro hbad
          cases hhg : S.head? with
          | none => rw [hhg] at hbad; simp at hbad
          | some c =>
              rw [hhg] at hbad
              have hbad2 : some (mqttUnconvChar c) = some mqttTopicLevelSep := hbad
              have := (mqttUnconvChar_eq_slash_iff c).mp (by injection hbad2)
              exact hh (by rw [hhg, this])
        · rw [getLastMap]
          intro hbad
          cases hlg : S.getLast? with
          | none => rw [hlg] at hbad; simp at hbad
          | some c =>
              rw [hlg] at hbad
              have hbad2 : some (mqttUnconvChar c) = some mqttTopicLevelSep := hbad
              have := (mqttUnconvChar_eq_slash_iff c).mp (by injection hbad2)
              exact hl (by rw [hlg, this])
      rw [hloop]
      simp only [exceptBindOk]
      exact ⟨_, rfl⟩

/-! ### Claim C2 and C3 -/

/-- C2 counterexample: for the topic "./" (accepted by the translation with
subject "/./"), translating the subject back to a topic gives "/", whose
translation is the subject "/" and not "/./" ; so the claimed identity
mqttToSubject(subjectToMqtt(mqttToSubject(T))) = mqttToSubject(T) fails at
T = "./" . -/
theorem mqttSubjectRoundTrip_counterexample :
    mqttToNATSSubjectConversion [btsep, mqttTopicLevelSep] false
      = .ok (true, [mqttTopicLevelSep, btsep, mqttTopicLevelSep])
  ∧ mqttFromNATSPubSubject [mqttTopicLevelSep, btsep, mqttTopicLevelSep] = [mqttTopicLevelSep]
  ∧ mqttToNATSSubjectConversion [mqttTopicLevelSep] false = .ok (false, [mqttTopicLevelSep])
  ∧ ([mqttTopicLevelSep] : List Char) ≠ [mqttTopicLevelSep, btsep, mqttTopicLevelSep] := by
  decide

/-- C2 (amended): for every nonempty topic string T accepted by the
MQTT-to-subject translation whose translated subject is not the ambiguous
three-character subject "/./", translating the subject back to an MQTT
topic and translating the result again yields the same subject:
mqttToSubject(subjectToMqtt(mqttToSubject(T))) = mqttToSubject(T).  (The
subject "/./" — produced exactly by the topics "/.", "./" and "./." — maps
back to the topic "/" and is the sole exception.) -/
theorem mqttSubjectRoundTrip_amended (wc : Bool) (T : List Char) (cp : Bool) (S : List Char)
    (hne : T ≠ [])
    (h : mqttToNATSSubjectConversion T wc = .ok (cp, S))
    (hx : S ≠ [mqttTopicLevelSep, btsep, mqttTopicLevelSep]) :
    ∃ cp', mqttToNATSSubjectConversion (mqttFromNATSPubSubject S) wc = .ok (cp', S) := by
  obtain ⟨hA, hh, hl⟩ := mqttToNATSSubjectConversion_image wc T cp S hne h
  exact mqttToFromSubject_fix wc S hA hh hl hx

theorem mqttSubjectRoundTrip_amended_witness :
    ((['/', 'f', 'o', 'o', '/', 'b', 'a', 'r'] : List Char) ≠ [])
  ∧ mqttToNATSSubjectConversion ['/', 'f', 'o', 'o', '/', 'b', 'a', 'r'] false
      = .ok (true, ['/', '.', 'f', 'o', 'o', '.', 'b', 'a', 'r'])
  ∧ (['/', '.', 'f', 'o', 'o', '.', 'b', 'a', 'r'] : List Char)
      ≠ [mqttTopicLevelSep, btsep, mqttTopicLevelSep]
  ∧ ∃ cp', mqttToNATSSubjectConversion
      (mqttFromNATSPubSubject ['/', '.', 'f', 'o', 'o', '.', 'b', 'a', 'r']) false
      = .ok (cp', ['/', '.', 'f', 'o', 'o', '.', 'b', 'a', 'r']) :=
  ⟨by decide, by decide, by decide,
    mqttSubjectRoundTrip_amended false ['/', 'f', 'o', 'o', '/', 'b', 'a', 'r'] true
      ['/', '.', 'f', 'o', 'o', '.', 'b', 'a', 'r'] (by decide) (by decide) (by decide)⟩

/-- C3: the topic "/foo/bar" translates to the subject "/.foo.bar" and the
inverse translation maps "/.foo.bar" back to "/foo/bar"; the
single-character topic "/" is preserved unchanged in both directions. -/
theorem mqttTopicSlashExamples :
    mqttTopicToNATSPubSubject "/foo/bar".toList = .ok (true, "/.foo.bar".toList)
  ∧ mqttFromNATSPubSubject "/.foo.bar".toList = "/foo/bar".toList
  ∧ mqttTopicToNATSPubSubject "/".toList = .ok (false, "/".toList)
  ∧ mqttFromNATSPubSubject "/".toList = "/".toList := by
  decide

/-! ### MQTT writer primitives (mqttWriter, mqtt.go) -/

/-- mqttWriter.WriteVarInt (mqtt.go): the variable-length remaining-length
encoder.  Each step writes the low 7 bits; if more value remains the high
bit is set (b + 128, since b < 128) and the loop continues on value / 128.
The fuel argument only bounds the recursion so the definition is
structural; value itself is always enough fuel because the remaining value
shrinks by a factor of 128 each step, so the zero-fuel arm is never
reached from mqttWriteVarInt. -/
def mqttWriteVarIntFuel : Nat → Nat → List Nat
  | 0, value => [value % 128]
  | fuel + 1, value =>
      let b := value % 128
      let v := value / 128
      if v > 0 then (b + 128) :: mqttWriteVarIntFuel fuel v
      else [b]

def mqttWriteVarInt (value : Nat) : List Nat := mqttWriteVarIntFuel value value

/-- mqttWriter.WriteUint16 (mqtt.go): big-endian 16-bit write; each Go
byte() truncation is mod 256. -/
def mqttWriteUint16 (i : Nat) : List Nat := [i / 256 % 256, i % 256]

/-- mqttWriter.WriteBytes (mqtt.go): a 16-bit length prefix then the bytes. -/
def mqttWriteBytes (bs : List Nat) : List Nat := mqttWriteUint16 bs.length ++ bs

/-! ### Per-connection state: packet identifiers and pending acks
(struct mqtt and mqttAck, mqtt.go) -/

/-- mqttAck (mqtt.go): the NATS reply subject to ack and the consumer key. -/
structure MqttAckRec where
  ackSubj : String
  jsConsKey : String
deriving DecidableEq, Repr

/-- The fields of the per-connection mqtt struct (mqtt.go) that carry the
outbound packet-identifier counter and the pending acks: ppi is the uint16
counter (a Nat kept below 65536 by the mod-2-to-16 increment), acks the
map keyed by packet identifier, cons the key set of the consumer map.  Go
maps are embedded as association lists: insert conses after erasing the
key, delete erases the key, and length is list length. -/
structure MqttConnMqtt where
  ppi : Nat
  acks : List (Nat × MqttAckRec)
  cons : List String
deriving DecidableEq, Repr

def lookupAck (pid : Nat) : List (Nat × MqttAckRec) → Option MqttAckRec
  | [] => none
  | (k, v) :: rest => if k = pid then some v else lookupAck pid rest

def eraseAck (pid : Nat) (l : List (Nat × MqttAckRec)) : List (Nat × MqttAckRec) :=
  l.filter (fun p => p.1 ≠ pid)

/-- The serialization record produced by mqttSerializePublishMsg: the
header flags, the allocated packet identifier (0 when none), the declared
remaining length pkLen, and the bytes written. -/
structure SerializedPub where
  flags : Nat
  pid : Nat
  pkLen : Nat
  bytes : List Nat
deriving DecidableEq, Repr

/-- mqttGetQoS (mqtt.go): the QoS bits of a PUBLISH flags byte. -/
def mqttGetQoS (flags : Nat) : Nat := (flags &&& mqttPubFlagQoS) >>> 1

/-- mqttSerializePublishMsg (mqtt.go).  When both the subscription QoS and
the published QoS are positive the source adds 2 to pkLen, increments the
uint16 counter ppi with no wrap guard (so 65535 wraps to 0), records the
pending ack when a reply subject is present, and sets the QoS-1 bit; it
then writes the header byte, the varint pkLen, the length-prefixed topic,
the packet identifier only when it is positive, and the message. -/
def mqttSerializePublishMsg (st : MqttConnMqtt) (topic : List Nat) (reply : String)
    (msg : List Nat) (ppFlags : Nat) (subQos : Nat) (jsConsKey : String) :
    MqttConnMqtt × SerializedPub :=
  let pkLen0 := 2 + topic.length + msg.length
  let flags0 := if ppFlags ≠ 0 ∧ ppFlags &&& mqttPubFlagRetain ≠ 0 then mqttPubFlagRetain else 0
  let pubQoS := if ppFlags ≠ 0 then mqttGetQoS ppFlags else 0
  if subQos > 0 ∧ pubQoS > 0 then
    let ppi := (st.ppi + 1) % 65536
    let pid := ppi
    let pkLen := pkLen0 + 2
    let acks := if reply ≠ "" then (pid, ⟨reply, jsConsKey⟩) :: eraseAck pid st.acks else st.acks
    let flags := flags0 ||| mqttPubQos1
    let bytes := (mqttPacketPub ||| flags) :: (mqttWriteVarInt pkLen ++ mqttWriteBytes topic
        ++ (if pid > 0 then mqttWriteUint16 pid else []) ++ msg)
    ({ st with ppi := ppi, acks := acks }, ⟨flags, pid, pkLen, bytes⟩)
  else
    let bytes := (mqttPacketPub ||| flags0) :: (mqttWriteVarInt pkLen0 ++ mqttWriteBytes topic ++ msg)
    (st, ⟨flags0, 0, pkLen0, bytes⟩)

/-- One packet-identifier-allocating call (QoS-1 published message to a
QoS-1 subscription, no reply subject so the acks map is untouched). -/
def mqttAllocStep (st : MqttConnMqtt) : MqttConnMqtt :=
  (mqttSerializePublishMsg st [97] "" [] mqttPubQos1 1 "").1

/-- The connection state after n allocating deliveries from a fresh
connection. -/
def mqttStateAfter : Nat → MqttConnMqtt
  | 0 => ⟨0, [], []⟩
  | n + 1 => mqttAllocStep (mqttStateAfter n)

lemma mqttAllocStep_eval (k : Nat) :
    mqttAllocStep ⟨k, [], []⟩ = ⟨(k + 1) % 65536, [], []⟩ := by
  unfold mqttAllocStep mqttSerializePublishMsg
  rw [if_pos (by decide)]
  rfl

lemma mqttStateAfter_eval (n : Nat) : mqttStateAfter n = ⟨n % 65536, [], []⟩ := by
  induction n with
  | zero => rfl
  | succ n ih =>
      rw [mqttStateAfter, ih, mqttAllocStep_eval]
      have : (n % 65536 + 1) % 65536 = (n + 1) % 65536 := by omega
      rw [this]

/-- C1 (counter to the claim; the code has the bug): after 65535
allocations the counter holds 65535, and the next call to
mqttSerializePublishMsg allocates packet identifier 0 — not 1 as the spec
states.  Moreover the resulting QoS-1 PUBLISH is malformed: its flags byte
carries the QoS-1 bit and its declared remaining length pkLen counts the
two identifier bytes (5 = 2 + topic + msg + 2 here), yet since the
identifier 0 is not positive those two bytes are never written, so only 3
bytes follow the two header bytes. -/
theorem mqttPacketIdentifierWrapAllocatesZero :
    (mqttStateAfter 65535).ppi = 65535
  ∧ ((mqttSerializePublishMsg (mqttStateAfter 65535) [97] "r" [] mqttPubQos1 1 "k").2).pid = 0
  ∧ ((mqttSerializePublishMsg (mqttStateAfter 65535) [97] "r" [] mqttPubQos1 1 "k").2).flags
      = mqttPubQos1
  ∧ ((mqttSerializePublishMsg (mqttStateAfter 65535) [97] "r" [] mqttPubQos1 1 "k").2).pkLen = 5
  ∧ ((mqttSerializePublishMsg (mqttStateAfter 65535) [97] "r" [] mqttPubQos1 1 "k").2).bytes
      = [50, 5, 0, 1, 97]
  ∧ ((mqttSerializePublishMsg (mqttStateAfter 65535) [97] "r" [] mqttPubQos1 1 "k").2).bytes.length
      = 5 := by
  have h : mqttStateAfter 65535 = ⟨65535, [], []⟩ := by
    rw [mqttStateAfter_eval]
  rw [h]
  decide

/-! ### mqttProcessPubAck (mqtt.go) -/

/-- mqttProcessPubAck (mqtt.go): on a PUBACK for a known packet identifier,
delete the pending-ack entry, forward the stored ack subject when the
consumer key is still in the consumer map (returned here as the optional
forwarded subject), and reset the counter to 0 when the map became empty;
an unknown identifier changes nothing. -/
def mqttProcessPubAck (st : MqttConnMqtt) (pid : Nat) : MqttConnMqtt × Option String :=
  match lookupAck pid st.acks with
  | some ack =>
      let acks := eraseAck pid st.acks
      let fwd := if st.cons.contains ack.jsConsKey then some ack.ackSubj else none
      let newPpi := if acks.length = 0 then 0 else st.ppi
      ({ st with acks := acks, ppi := newPpi }, fwd)
  | none => (st, none)

lemma lookupAck_eraseAck_self (pid : Nat) (l : List (Nat × MqttAckRec)) :
    lookupAck pid (eraseAck pid l) = none := by
  induction l with
  | nil => rfl
  | cons p rest ih =>
      obtain ⟨k, v⟩ := p
      by_cases hk : k = pid
      · simp [eraseAck, hk] at ih ⊢
        exact ih
      · simp only [eraseAck, List.filter] at ih ⊢
        rw [show (decide ¬(k, v).1 = pid) = true by simp [hk]]
        rw [lookupAck, if_neg hk]
        exact ih

lemma lookupAck_eraseAck_ne (pid k : Nat) (hk : k ≠ pid) (l : List (Nat × MqttAckRec)) :
    lookupAck k (eraseAck pid l) = lookupAck k l := by
  induction l with
  | nil => rfl
  | cons p rest ih =>
      obtain ⟨k0, v⟩ := p
      by_cases hk0 : k0 = pid
      · simp only [eraseAck, List.filter] at ih ⊢
        rw [show (decide ¬(k0, v).1 = pid) = false by simp [hk0]]
        rw [lookupAck, if_neg (by omega)]
        exact ih
      · simp only [eraseAck, List.filter] at ih ⊢
        rw [show (decide ¬(k0, v).1 = pid) = true by simp [hk0]]
        rw [lookupAck, lookupAck]
        by_cases hkk : k0 = k
        · rw [if_pos hkk, if_pos hkk]
        · rw [if_neg hkk, if_neg hkk]
          exact ih

/-- C10: when mqttProcessPubAck is called with a packet identifier present
in the pending-acks map it removes that entry (leaving all other entries
alone), and if the map thereby becomes empty it resets the outbound
packet-identifier counter to 0 — so the next allocation by
mqttSerializePublishMsg yields packet identifier 1 — while a nonempty
remainder leaves the counter unchanged; a packet identifier not present in
the map leaves the whole state unchanged. -/
lemma mqttSerializePublishMsg_pid (st : MqttConnMqtt) (topic : List Nat) (reply : String)
    (msg : List Nat) (jsConsKey : String) :
    ((mqttSerializePublishMsg st topic reply msg mqttPubQos1 1 jsConsKey).2).pid
      = (st.ppi + 1) % 65536 := by
  unfold mqttSerializePublishMsg
  rw [if_pos (by decide)]

theorem mqttProcessPubAck_spec (st : MqttConnMqtt) (pid : Nat) :
    ((lookupAck pid st.acks).isSome = true →
        lookupAck pid (mqttProcessPubAck st pid).1.acks = none
      ∧ (∀ k, k ≠ pid → lookupAck k (mqttProcessPubAck st pid).1.acks = lookupAck k st.acks)
      ∧ ((mqttProcessPubAck st pid).1.acks = [] → (mqttProcessPubAck st pid).1.ppi = 0
          ∧ ∀ topic reply msg jsConsKey,
              ((mqttSerializePublishMsg (mqttProcessPubAck st pid).1 topic reply msg
                mqttPubQos1 1 jsConsKey).2).pid = 1)
      ∧ ((mqttProcessPubAck st pid).1.acks ≠ [] → (mqttProcessPubAck st pid).1.ppi = st.ppi))
  ∧ (lookupAck pid st.acks = none → mqttProcessPubAck st pid = (st, none)) := by
  cases hl : lookupAck pid st.acks with
  | none =>
      refine ⟨fun hsome => ?_, fun _ => ?_⟩
      · simp at hsome
      · simp only [mqttProcessPubAck, hl]
  | some a =>
      have hstep : (mqttProcessPubAck st pid).1
          = ⟨(if (eraseAck pid st.acks).length = 0 then 0 else st.ppi),
             eraseAck pid st.acks, st.cons⟩ := by
        simp only [mqttProcessPubAck, hl]
      have hacks : (mqttProcessPubAck st pid).1.acks = eraseAck pid st.acks := by
        rw [hstep]
      have hppi : (mqttProcessPubAck st pid).1.ppi
          = if (eraseAck pid st.acks).length = 0 then 0 else st.ppi := by
        rw [hstep]
      refine ⟨fun _ => ⟨?_, ?_, ?_, ?_⟩, fun hnone => ?_⟩
      · rw [hacks]
        exact lookupAck_eraseAck_self pid st.acks
      · intro k hk
        rw [hacks]
        exact lookupAck_eraseAck_ne pid k hk st.acks
      · intro hempty
        rw [hacks] at hempty
        have hppi0 : (mqttProcessPubAck st pid).1.ppi = 0 := by
          rw [hppi, hempty]
          simp
        refine ⟨hppi0, fun topic reply msg jsConsKey => ?_⟩
        rw [mqttSerializePublishMsg_pid, hppi0]
      · intro hne
        rw [hacks] at hne
        rw [hppi, if_neg (fun h0 => hne (List.eq_nil_of_length_eq_zero h0))]
      · simp at hnone

theorem mqttProcessPubAck_spec_witness :
    (lookupAck 3 (⟨7, [(3, ⟨"acksubj", "k1"⟩)], []⟩ : MqttConnMqtt).acks).isSome = true
  ∧ lookupAck 3 (mqttProcessPubAck ⟨7, [(3, ⟨"acksubj", "k1"⟩)], []⟩ 3).1.acks = none
  ∧ (mqttProcessPubAck ⟨7, [(3, ⟨"acksubj", "k1"⟩)], []⟩ 3).1.ppi = 0
  ∧ ((mqttSerializePublishMsg (mqttProcessPubAck ⟨7, [(3, ⟨"acksubj", "k1"⟩)], []⟩ 3).1 [97] "r" []
        mqttPubQos1 1 "k").2).pid = 1
  ∧ mqttProcessPubAck ⟨7, [(3, ⟨"acksubj", "k1"⟩)], []⟩ 9
      = (⟨7, [(3, ⟨"acksubj", "k1"⟩)], []⟩, none) := by
  have h3 := mqttProcessPubAck_spec ⟨7, [(3, ⟨"acksubj", "k1"⟩)], []⟩ 3
  have h9 := mqttProcessPubAck_spec ⟨7, [(3, ⟨"acksubj", "k1"⟩)], []⟩ 9
  obtain ⟨ha, hb, hc, _⟩ := h3.1 (by decide)
  exact ⟨by decide, ha, (hc (by decide)).1, (hc (by decide)).2 [97] "r" [] "k",
    h9.2 (by decide)⟩

/-! ### readPacketLen (mqttReader, mqtt.go) -/

/-- mqttReader.readPacketLen (mqtt.go): decodes the variable-length
remaining length.  The reader state (the buffered bytes followed by
whatever the underlying stream would yield) is embedded as one byte list;
exhausting it is the unexpected-EOF error path.  For every Nat b,
b &&& 0x7f equals b % 128 and the source's continuation test
(b &&& 0x80) == 0 holds exactly when b / 128 is even (bit 7 of b is
(b / 128) % 2), so the arithmetic below is the source's bit twiddling.
The accumulator v and the multiplier m follow the source, including the
m > 0x200000 check made after m is multiplied by 0x80. -/
def readPacketLenGo : Nat → Nat → List Nat → Except String (Nat × List Nat)
  | _, _, [] => .error ("unexpected EOF")
  | m, v, b :: rest =>
      let v2 := v + b % 128 * m
      if b / 128 % 2 = 0 then .ok (v2, rest)
      else if m * 128 > 0x200000 then .error ("malformed variable int")
      else readPacketLenGo (m * 128) v2 rest

/-- readPacketLen starts the loop with m = 1 and v = 0. -/
def readPacketLen (bytes : List Nat) : Except String (Nat × List Nat) :=
  readPacketLenGo 1 0 bytes

/-- The value denoted by a remaining-length byte sequence: seven bits per
byte, least-significant group first. -/
def mqttVarIntValue : List Nat → Nat
  | [] => 0
  | b :: rest => b % 128 + 128 * mqttVarIntValue rest

/-- C9: the remaining-length decoder reads up to 4 bytes, the high bit of
each indicating continuation; every well-formed encoding of at most 4
bytes (up to 3 continuation bytes followed by a terminating byte) decodes
to the encoded base-128 value, leaving the remaining input untouched; and
an input whose first four bytes all carry the continuation bit fails with
the error "malformed variable int". -/
theorem readPacketLen_spec :
    (∀ (initbs : List Nat) (lastb : Nat) (rest : List Nat),
        initbs.length ≤ 3 →
        (∀ b ∈ initbs, b / 128 % 2 = 1) →
        lastb / 128 % 2 = 0 →
        readPacketLen (initbs ++ lastb :: rest) = .ok (mqttVarIntValue (initbs ++ [lastb]), rest))
  ∧ (∀ (b0 b1 b2 b3 : Nat) (rest : List Nat),
        b0 / 128 % 2 = 1 → b1 / 128 % 2 = 1 → b2 / 128 % 2 = 1 → b3 / 128 % 2 = 1 →
        readPacketLen (b0 :: b1 :: b2 :: b3 :: rest) = .error ("malformed variable int")) := by
  constructor
  · intro initbs lastb rest hlen hcont hlast
    rcases initbs with - | ⟨a, - | ⟨b, - | ⟨c, - | ⟨d, t⟩⟩⟩⟩
    · simp only [List.nil_append, readPacketLen, readPacketLenGo, mqttVarIntValue]
      rw [if_pos hlast]
      norm_num
    · have ha := hcont a (by simp)
      simp only [List.cons_append, List.nil_append, readPacketLen, readPacketLenGo,
        mqttVarIntValue]
      rw [if_neg (by omega), if_neg (by norm_num), if_pos hlast]
      ring_nf
    · have ha := hcont a (by simp)
      have hb := hcont b (by simp)
      simp only [List.cons_append, List.nil_append, readPacketLen, readPacketLenGo,
        mqttVarIntValue]
      rw [if_neg (by omega), if_neg (by norm_num), if_neg (by omega), if_neg (by norm_num),
        if_pos hlast]
      ring_nf
    · have ha := hcont a (by simp)
      have hb := hcont b (by simp)
      have hc := hcont c (by simp)
      simp only [List.cons_append, List.nil_append, readPacketLen, readPacketLenGo,
        mqttVarIntValue]
      rw [if_neg (by omega), if_neg (by norm_num), if_neg (by omega), if_neg (by norm_num),
        if_neg (by omega), if_neg (by norm_num), if_pos hlast]
      ring_nf
    · simp at hlen
  · intro b0 b1 b2 b3 rest h0 h1 h2 h3
    simp only [readPacketLen, readPacketLenGo]
    rw [if_neg (by omega), if_neg (by norm_num), if_neg (by omega), if_neg (by norm_num),
      if_neg (by omega), if_neg (by norm_num), if_neg (by omega), if_pos (by norm_num)]

theorem readPacketLen_spec_witness :
    readPacketLen [129, 130, 3, 9] = .ok (mqttVarIntValue [129, 130, 3], [9])
  ∧ readPacketLen [128, 128, 128, 128] = .error ("malformed variable int") :=
  ⟨readPacketLen_spec.1 [129, 130] 3 [9] (by decide) (by decide) (by decide),
   readPacketLen_spec.2 128 128 128 128 [] (by decide) (by decide) (by decide) (by decide)⟩

/-! ### SUBSCRIBE processing and SUBACK (mqtt.go) -/

/-- mqttFilter (mqtt.go): the filter bytes and the QoS byte, which
mqttProcessSubs mutates into the result byte. -/
structure MqttFilterRec where
  filter : List Char
  qos : Nat
deriving DecidableEq, Repr

/-- The per-filter qos updates of the loop of mqttProcessSubs (mqtt.go):
each filter's requested QoS is first clamped (if f.qos > 1 then f.qos = 1),
then the subscription and, for QoS 1, the JS consumer are created; when
either step fails the result byte becomes mqttSubAckFailure (0x80) and the
loop continues with the next filter.  Success or failure of the broker
calls depends on broker state outside this file and is supplied as the
oracle fails, indexed by the filter's position. -/
def mqttProcessSubsQoS (fails : Nat → Bool) : Nat → List MqttFilterRec → List MqttFilterRec
  | _, [] => []
  | i, f :: rest =>
      let q1 := if f.qos > 1 then 1 else f.qos
      let q2 := if fails i then mqttSubAckFailure else q1
      { f with qos := q2 } :: mqttProcessSubsQoS fails (i + 1) rest

/-- mqttEnqueueSubAck (mqtt.go): the SUBACK packet byte, the varint
remaining length 2 + one byte per filter, the packet identifier, then each
filter's result byte in order. -/
def mqttEnqueueSubAck (pid : Nat) (filters : List MqttFilterRec) : List Nat :=
  mqttPacketSubAck :: (mqttWriteVarInt (2 + filters.length) ++ mqttWriteUint16 pid
    ++ filters.map (fun f => f.qos))

lemma mqttProcessSubsQoS_length (fails : Nat → Bool) (fs : List MqttFilterRec) :
    ∀ i, (mqttProcessSubsQoS fails i fs).length = fs.length := by
  induction fs with
  | nil => intro i; rfl
  | cons f rest ih =>
      intro i
      rw [mqttProcessSubsQoS]
      simp only [List.length_cons, ih]

lemma mqttProcessSubsQoS_getElem (fails : Nat → Bool) (fs : List MqttFilterRec) :
    ∀ (i k : Nat),
    (mqttProcessSubsQoS fails i fs)[k]?
      = fs[k]?.map (fun f =>
          { f with qos := if fails (i + k) then mqttSubAckFailure else min f.qos 1 }) := by
  induction fs with
  | nil => intro i k; simp [mqttProcessSubsQoS]
  | cons f rest ih =>
      intro i k
      rw [mqttProcessSubsQoS]
      cases k with
      | zero =>
          simp only [List.getElem?_cons_zero, Option.map]
          have hmin : (if f.qos > 1 then 1 else f.qos) = min f.qos 1 := by
            split_ifs with h <;> omega
          rw [Nat.add_zero, hmin]
      | succ k' =>
          simp only [List.getElem?_cons_succ]
          rw [show i + (k' + 1) = i + 1 + k' from by omega]
          exact ih (i + 1) k'

/-- C5: for every SUBSCRIBE packet whose filters are processed by
mqttProcessSubs, the filter list keeps its length and order, the result
byte at each position equals min(requested QoS, 1) when that filter's
processing succeeded and mqttSubAckFailure (0x80) when it failed, and the
SUBACK built by mqttEnqueueSubAck carries, after the packet byte, the
remaining length and the packet identifier, exactly one result byte per
filter in the order the filters appeared in the payload. -/
theorem mqttSubAckOneResultBytePerFilter (fails : Nat → Bool) (fs : List MqttFilterRec)
    (pid : Nat) :
    (mqttProcessSubsQoS fails 0 fs).length = fs.length
  ∧ (∀ k, (mqttProcessSubsQoS fails 0 fs)[k]?
        = fs[k]?.map (fun (f : MqttFilterRec) =>
            { f with qos := if fails k then mqttSubAckFailure else min f.qos 1 }))
  ∧ mqttEnqueueSubAck pid (mqttProcessSubsQoS fails 0 fs)
      = mqttPacketSubAck :: (mqttWriteVarInt (2 + fs.length) ++ mqttWriteUint16 pid
          ++ (mqttProcessSubsQoS fails 0 fs).map (fun f => f.qos))
  ∧ ((mqttProcessSubsQoS fails 0 fs).map (fun f => f.qos)).length = fs.length := by
  refine ⟨mqttProcessSubsQoS_length fails fs 0, ?_, ?_, ?_⟩
  · intro k
    have := mqttProcessSubsQoS_getElem fails fs 0 k
    simpa using this
  · unfold mqttEnqueueSubAck
    rw [mqttProcessSubsQoS_length fails fs 0]
  · rw [List.length_map, mqttProcessSubsQoS_length fails fs 0]

theorem mqttSubAckOneResultBytePerFilter_witness :
    (mqttProcessSubsQoS (fun i => i = 1) 0
        [⟨['a'], 2⟩, ⟨['b'], 0⟩, ⟨['c'], 1⟩])[0]? = some ⟨['a'], 1⟩
  ∧ (mqttProcessSubsQoS (fun i => i = 1) 0
        [⟨['a'], 2⟩, ⟨['b'], 0⟩, ⟨['c'], 1⟩])[1]? = some ⟨['b'], mqttSubAckFailure⟩
  ∧ mqttEnqueueSubAck 5 (mqttProcessSubsQoS (fun i => i = 1) 0
        [⟨['a'], 2⟩, ⟨['b'], 0⟩, ⟨['c'], 1⟩])
      = mqttPacketSubAck :: (mqttWriteVarInt (2 + 3) ++ mqttWriteUint16 5
          ++ (mqttProcessSubsQoS (fun i => i = 1) 0
            [⟨['a'], 2⟩, ⟨['b'], 0⟩, ⟨['c'], 1⟩]).map (fun f => f.qos)) := by
  have h := mqttSubAckOneResultBytePerFilter (fun i => i = 1)
    [⟨['a'], 2⟩, ⟨['b'], 0⟩, ⟨['c'], 1⟩] 5
  refine ⟨?_, ?_, h.2.2.1⟩
  · rw [h.2.1 0]
    decide
  · rw [h.2.1 1]
    decide

/-! ### CONNECT client-ID validation (mqttParseConnect, mqtt.go) -/

/-- The client-ID step of mqttParseConnect (mqtt.go): after the client ID
string is read, an empty client ID is rejected with return code
mqttConnAckRCIdentifierRejected when the clean-session flag is not set,
and replaced by a freshly generated unique ID (nuid.Next(), supplied here
as freshID) when it is; a nonempty client ID is kept.  (A Lean String is
always valid UTF-8, so the utf8.ValidString check of the source cannot
fail in this embedding.)  An error carries the return code and message. -/
def mqttParseConnectClientID (flags : Nat) (clientID : String) (freshID : String) :
    Except (Nat × String) String :=
  if clientID = "" then
    if flags &&& mqttConnFlagCleanSession = 0 then
      .error (mqttConnAckRCIdentifierRejected,
        "when client ID is empty, clean session flag must be set to 1")
    else .ok freshID
  else .ok clientID

/-- mqttEnqueueConnAck (mqtt.go): the four CONNACK bytes; the session
present byte is forced to 0 whenever the return code is nonzero. -/
def mqttEnqueueConnAck (rc : Nat) (sessionPresent : Bool) : List Nat :=
  [mqttPacketConnectAck, 2, if rc = 0 ∧ sessionPresent then 1 else 0, rc]

/-- The CONNECT arm of mqttParse (mqtt.go): once mqttProcessConnect has
returned (rc, err), the CONNACK is enqueued iff no error occurred or a
nonzero return code was supplied. -/
def mqttConnAckSent (rc : Nat) (errored : Bool) : Bool :=
  !errored || decide (rc ≠ 0)

/-- C8: on CONNECT with an empty client ID, if the clean-session flag is
not set the connection is refused with CONNACK return code 2 (identifier
rejected): the parse fails with that code, the CONNACK is nevertheless
sent, and its bytes are 0x20, 2, 0, 2 regardless of the session-present
input; with the clean-session flag set the parse succeeds and the
generated unique ID is used as the client ID. -/
theorem mqttEmptyClientID (flags : Nat) (freshID : String) :
    (flags &&& mqttConnFlagCleanSession = 0 →
        mqttParseConnectClientID flags "" freshID
          = .error (mqttConnAckRCIdentifierRejected,
              "when client ID is empty, clean session flag must be set to 1")
      ∧ mqttConnAckSent mqttConnAckRCIdentifierRejected true = true
      ∧ ∀ sp, mqttEnqueueConnAck mqttConnAckRCIdentifierRejected sp
          = [mqttPacketConnectAck, 2, 0, mqttConnAckRCIdentifierRejected])
  ∧ (flags &&& mqttConnFlagCleanSession ≠ 0 →
        mqttParseConnectClientID flags "" freshID = .ok freshID) := by
  constructor
  · intro hflag
    refine ⟨?_, by decide, ?_⟩
    · unfold mqttParseConnectClientID
      rw [if_pos rfl, if_pos hflag]
    · intro sp
      unfold mqttEnqueueConnAck
      rw [if_neg (by simp [mqttConnAckRCIdentifierRejected])]
  · intro hflag
    unfold mqttParseConnectClientID
    rw [if_pos rfl, if_neg hflag]

theorem mqttEmptyClientID_witness :
    mqttParseConnectClientID 0 "" "generatedID"
      = .error (mqttConnAckRCIdentifierRejected,
          "when client ID is empty, clean session flag must be set to 1")
  ∧ mqttEnqueueConnAck mqttConnAckRCIdentifierRejected true
      = [mqttPacketConnectAck, 2, 0, mqttConnAckRCIdentifierRejected]
  ∧ mqttParseConnectClientID mqttConnFlagCleanSession "" "generatedID" = .ok "generatedID" := by
  have h0 := mqttEmptyClientID 0 "generatedID"
  have h2 := mqttEmptyClientID mqttConnFlagCleanSession "generatedID"
  exact ⟨(h0.1 (by decide)).1, (h0.1 (by decide)).2.2 true, h2.2 (by decide)⟩

/-! ### PUBLISH dispatch ordering (mqttParse and mqttProcessPub, mqtt.go) -/

/-- mqttPublish (mqtt.go): the fields this development uses — the already
translated subject, the payload bytes and size, the QoS-1 packet
identifier, the PUBLISH flags byte, and the recorded source user name. -/
structure MqttPublishRec where
  subject : List Char
  msg : List Nat
  sz : Nat
  pid : Nat
  flags : Nat
  source : String
deriving DecidableEq, Repr

inductive MqttEvent where
  | fanout (subject : List Char) (msg : List Nat)
  | storeMsg (subject : List Char) (msg : List Nat)
  | sendPubAck (pid : Nat)
deriving DecidableEq, Repr

/-- mqttProcessPub (mqtt.go) as the ordered list of externally visible
actions on the success path: processInboundClientMsg (the subject fan-out)
runs first; then, when the published QoS is positive, the message is
handed to the account's messages stream and that call returns before
mqttProcessPub does.  The storeMsg event is modelled from the spec:
directProcessInboundJetStreamMsg is host-broker stream code outside this
file, and the spec says the message "is additionally appended to the
account's messages stream". -/
def mqttProcessPubEvents (pp : MqttPublishRec) : List MqttEvent :=
  [.fanout pp.subject pp.msg]
    ++ (if mqttGetQoS pp.flags > 0 then [.storeMsg pp.subject pp.msg] else [])

/-- The PUBLISH arm of the packet loop mqttParse (mqtt.go) on the success
path: mqttProcessPub runs to completion, then, if the packet identifier is
positive, the PUBACK is enqueued. -/
def mqttParsePubDispatchEvents (pp : MqttPublishRec) : List MqttEvent :=
  mqttProcessPubEvents pp ++ (if pp.pid > 0 then [.sendPubAck pp.pid] else [])

/-- C7: for every received QoS-1 PUBLISH that is processed successfully
(parsed QoS 1, hence a positive packet identifier), the event appending
the message to the account's messages stream strictly precedes the event
emitting the PUBACK back to the publisher in the dispatch trace. -/
theorem mqttPubAckAfterStore (pp : MqttPublishRec)
    (hq : mqttGetQoS pp.flags = 1) (hpi : pp.pid > 0) :
    ∃ (i j : Nat), i < j
      ∧ (mqttParsePubDispatchEvents pp)[i]? = some (MqttEvent.storeMsg pp.subject pp.msg)
      ∧ (mqttParsePubDispatchEvents pp)[j]? = some (MqttEvent.sendPubAck pp.pid) := by
  refine ⟨1, 2, by omega, ?_, ?_⟩
  · unfold mqttParsePubDispatchEvents mqttProcessPubEvents
    rw [if_pos (by omega), if_pos hpi]
    rfl
  · unfold mqttParsePubDispatchEvents mqttProcessPubEvents
    rw [if_pos (by omega), if_pos hpi]
    rfl

theorem mqttPubAckAfterStore_witness :
    ∃ (i j : Nat), i < j
      ∧ (mqttParsePubDispatchEvents ⟨['a'], [104], 1, 7, 2, "u"⟩)[i]?
          = some (MqttEvent.storeMsg ['a'] [104])
      ∧ (mqttParsePubDispatchEvents ⟨['a'], [104], 1, 7, 2, "u"⟩)[j]?
          = some (MqttEvent.sendPubAck 7) :=
  mqttPubAckAfterStore ⟨['a'], [104], 1, 7, 2, "u"⟩ (by decide) (by decide)

/-! ### Retained messages (mqttHandlePubRetain, mqtt.go) -/

/-- A stored retained message: the deep-copied publish record (its source
field set to the publishing user) together with the identity of the
subscription object that was inserted into the sublist index for it. -/
structure RetainedEntry where
  pp : MqttPublishRec
  subId : Nat
deriving DecidableEq, Repr

/-- The retained-message store mqttRetained (mqtt.go): msgs is the
topic-keyed map (an association list), sl the sublist index holding one
node per inserted subscription object (a node identity paired with its
subject — the identities stand for Go pointer identity of the
subscription objects, drawn from the fresh supply nextId). -/
structure MqttRetainedStore where
  msgs : List (List Char × RetainedEntry)
  sl : List (Nat × List Char)
  nextId : Nat
deriving DecidableEq, Repr

def lookupRetained (key : List Char) : List (List Char × RetainedEntry) → Option RetainedEntry
  | [] => none
  | (k, v) :: rest => if k = key then some v else lookupRetained key rest

def eraseRetained (key : List Char) (l : List (List Char × RetainedEntry)) :
    List (List Char × RetainedEntry) :=
  l.filter (fun p => p.1 ≠ key)

/-- The number of map entries stored under a topic key. -/
def countRetained (key : List Char) (l : List (List Char × RetainedEntry)) : Nat :=
  (l.filter (fun p => p.1 = key)).length

/-- mqttHandlePubRetain (mqtt.go).  When the retain bit of the PUBLISH
flags is set ((flags and 0x01) == 1): a zero-size payload deletes the map
entry for the topic, if any, removing that stored entry's own index node
from the sublist; a nonzero payload stores a clone of the message (source
set to the publishing user) under the topic, overwriting any previous map
entry, and inserts a fresh index node (the source does not remove the
previous entry's node here).  In both cases the retain bit is then
cleared from the message that continues to normal delivery
(flags &= ^mqttPubFlagRetain on a byte, i.e. flags &&& 254). -/
def mqttHandlePubRetain (r : MqttRetainedStore) (pp : MqttPublishRec) (username : String) :
    MqttRetainedStore × MqttPublishRec :=
  let r2 :=
    if pp.flags &&& mqttPubFlagRetain = 1 then
      if pp.sz = 0 then
        match lookupRetained pp.subject r.msgs with
        | some epp =>
            { r with msgs := eraseRetained pp.subject r.msgs,
                     sl := r.sl.filter (fun n => n.1 ≠ epp.subId) }
        | none => r
      else
        { msgs := (pp.subject, ⟨{ pp with source := username }, r.nextId⟩)
            :: eraseRetained pp.subject r.msgs,
          sl := (r.nextId, pp.subject) :: r.sl,
          nextId := r.nextId + 1 }
    else r
  (r2, { pp with flags := pp.flags &&& 254 })

lemma countRetained_eraseRetained_self (key : List Char) (l : List (List Char × RetainedEntry)) :
    countRetained key (eraseRetained key l) = 0 := by
  induction l with
  | nil => rfl
  | cons p rest ih =>
      obtain ⟨k, v⟩ := p
      by_cases hk : k = key
      · simpa [countRetained, eraseRetained, hk] using ih
      · simpa [countRetained, eraseRetained, hk] using ih

lemma lookupRetained_eraseRetained_ne (key k : List Char) (hk : k ≠ key)
    (l : List (List Char × RetainedEntry)) :
    lookupRetained k (eraseRetained key l) = lookupRetained k l := by
  induction l with
  | nil => rfl
  | cons p rest ih =>
      obtain ⟨k0, v⟩ := p
      by_cases hk0 : k0 = key
      · rw [show eraseRetained key ((k0, v) :: rest) = eraseRetained key rest by
          simp [eraseRetained, hk0]]
        rw [ih, lookupRetained, if_neg (by rw [hk0]; exact fun h => hk h.symm)]
      · rw [show eraseRetained key ((k0, v) :: rest) = (k0, v) :: eraseRetained key rest by
          simp [eraseRetained, hk0]]
        rw [lookupRetained, lookupRetained]
        by_cases hkk : k0 = k
        · rw [if_pos hkk, if_pos hkk]
        · rw [if_neg hkk, if_neg hkk, ih]

lemma landClearRetainBit (x : Nat) : x &&& 254 &&& mqttPubFlagRetain = 0 := by
  show x &&& 254 &&& 1 = 0
  rw [Nat.land_assoc]
  simp

/-- C4: from any retained store, a PUBLISH with the retain bit set and a
nonzero payload leaves exactly one map entry for its topic — the stored
clone with the publisher recorded as source and a fresh index node — and
hands the message on with the retain bit cleared; a subsequent PUBLISH
with the retain bit set and a zero-length payload on the same topic then
removes both that map entry (leaving zero entries for the topic, other
topics untouched) and that entry's index node, again clearing the retain
bit on the concurrently delivered message. -/
theorem mqttRetainStoreThenRemove (r0 : MqttRetainedStore) (pp1 pp2 : MqttPublishRec)
    (u1 u2 : String)
    (h1r : pp1.flags &&& mqttPubFlagRetain = 1) (h1s : pp1.sz ≠ 0)
    (h2r : pp2.flags &&& mqttPubFlagRetain = 1) (h2s : pp2.sz = 0)
    (hsub : pp2.subject = pp1.subject)
    (r1 r2 : MqttRetainedStore) (d1 d2 : MqttPublishRec)
    (hstep1 : mqttHandlePubRetain r0 pp1 u1 = (r1, d1))
    (hstep2 : mqttHandlePubRetain r1 pp2 u2 = (r2, d2)) :
    countRetained pp1.subject r1.msgs = 1
  ∧ lookupRetained pp1.subject r1.msgs = some ⟨{ pp1 with source := u1 }, r0.nextId⟩
  ∧ d1.flags &&& mqttPubFlagRetain = 0
  ∧ countRetained pp1.subject r2.msgs = 0
  ∧ (∀ key, key ≠ pp1.subject → lookupRetained key r2.msgs = lookupRetained key r0.msgs)
  ∧ (r0.nextId, pp1.subject) ∉ r2.sl
  ∧ d2.flags &&& mqttPubFlagRetain = 0 := by
  have h1 := hstep1
  simp only [mqttHandlePubRetain] at h1
  rw [if_pos h1r, if_neg h1s, Prod.mk.injEq] at h1
  have hr1m : r1.msgs = (pp1.subject, ⟨{ pp1 with source := u1 }, r0.nextId⟩)
      :: eraseRetained pp1.subject r0.msgs := by
    rw [← h1.1]
  have hr1sl : r1.sl = (r0.nextId, pp1.subject) :: r0.sl := by
    rw [← h1.1]
  have hd1f : d1.flags = pp1.flags &&& 254 := by
    rw [← h1.2]
  have hlook1 : lookupRetained pp2.subject r1.msgs
      = some ⟨{ pp1 with source := u1 }, r0.nextId⟩ := by
    rw [hsub, hr1m, lookupRetained, if_pos rfl]
  have h2 := hstep2
  simp only [mqttHandlePubRetain] at h2
  rw [if_pos h2r, if_pos h2s, hlook1] at h2
  have h2' : ((⟨eraseRetained pp2.subject r1.msgs,
      r1.sl.filter (fun n => n.1 ≠ r0.nextId), r1.nextId⟩ : MqttRetainedStore),
      ({ pp2 with flags := pp2.flags &&& 254 } : MqttPublishRec)) = (r2, d2) := h2
  rw [Prod.mk.injEq] at h2'
  have hr2m : r2.msgs = eraseRetained pp2.subject r1.msgs := by
    rw [← h2'.1]
  have hr2sl : r2.sl = r1.sl.filter (fun n => n.1 ≠ r0.nextId) := by
    rw [← h2'.1]
  have hd2f : d2.flags = pp2.flags &&& 254 := by
    rw [← h2'.2]
  refine ⟨?_, ?_, ?_, ?_, ?_, ?_, ?_⟩
  · rw [hr1m]
    show ((((pp1.subject, (⟨{ pp1 with source := u1 }, r0.nextId⟩ : RetainedEntry))
      :: eraseRetained pp1.subject r0.msgs)).filter (fun p => p.1 = pp1.subject)).length = 1
    rw [List.filter_cons_of_pos (by simp)]
    have hc := countRetained_eraseRetained_self pp1.subject r0.msgs
    unfold countRetained at hc
    simp [hc]
  · rw [hr1m, lookupRetained, if_pos rfl]
  · rw [hd1f]
    exact landClearRetainBit pp1.flags
  · rw [hr2m, hsub]
    exact countRetained_eraseRetained_self pp1.subject r1.msgs
  · intro key hkey
    rw [hr2m, hsub, lookupRetained_eraseRetained_ne pp1.subject key hkey r1.msgs, hr1m,
      lookupRetained, if_neg (fun h => hkey h.symm), 
      lookupRetained_eraseRetained_ne pp1.subject key hkey r0.msgs]
  · rw [hr2sl]
    intro hmem
    have hp := (List.mem_filter.mp hmem).2
    simp at hp
  · rw [hd2f]
    exact landClearRetainBit pp2.flags

theorem mqttRetainStoreThenRemove_witness :
    countRetained ['t']
      (mqttHandlePubRetain ⟨[], [], 5⟩ ⟨['t'], [104], 1, 0, 1, ""⟩ "alice").1.msgs = 1
  ∧ lookupRetained ['t']
      (mqttHandlePubRetain ⟨[], [], 5⟩ ⟨['t'], [104], 1, 0, 1, ""⟩ "alice").1.msgs
      = some ⟨⟨['t'], [104], 1, 0, 1, "alice"⟩, 5⟩
  ∧ countRetained ['t']
      (mqttHandlePubRetain
        (mqttHandlePubRetain ⟨[], [], 5⟩ ⟨['t'], [104], 1, 0, 1, ""⟩ "alice").1
        ⟨['t'], [], 0, 0, 1, ""⟩ "bob").1.msgs = 0
  ∧ (5, ['t']) ∉ (mqttHandlePubRetain
        (mqttHandlePubRetain ⟨[], [], 5⟩ ⟨['t'], [104], 1, 0, 1, ""⟩ "alice").1
        ⟨['t'], [], 0, 0, 1, ""⟩ "bob").1.sl := by
  have h := mqttRetainStoreThenRemove ⟨[], [], 5⟩ ⟨['t'], [104], 1, 0, 1, ""⟩
    ⟨['t'], [], 0, 0, 1, ""⟩ "alice" "bob" (by decide) (by decide) (by decide) (by decide)
    (by decide)
    (mqttHandlePubRetain ⟨[], [], 5⟩ ⟨['t'], [104], 1, 0, 1, ""⟩ "alice").1
    (mqttHandlePubRetain
      (mqttHandlePubRetain ⟨[], [], 5⟩ ⟨['t'], [104], 1, 0, 1, ""⟩ "alice").1
      ⟨['t'], [], 0, 0, 1, ""⟩ "bob").1
    (mqttHandlePubRetain ⟨[], [], 5⟩ ⟨['t'], [104], 1, 0, 1, ""⟩ "alice").2
    (mqttHandlePubRetain
      (mqttHandlePubRetain ⟨[], [], 5⟩ ⟨['t'], [104], 1, 0, 1, ""⟩ "alice").1
      ⟨['t'], [], 0, 0, 1, ""⟩ "bob").2
    rfl rfl
  exact ⟨h.1, h.2.1, h.2.2.2.1, h.2.2.2.2.2.1⟩

/-! ### CONNECT session takeover (mqttProcessConnect, mqtt.go) -/

inductive CloseReason where
  | duplicateClientID
deriving DecidableEq, Repr

/-- The per-connection datum takeover manipulates: whether the connection
still has a Will registered (ec.mqtt.cp.will not nil). -/
structure MqttConnRec where
  hasWill : Bool
deriving DecidableEq, Repr

/-- mqttSession (mqtt.go): the bound client (a connection identity or
none), the clean flag, the subscriptions map, the keys of the session's
JS consumers, and the stream sequence of its persisted record. -/
structure MqttSessionRec where
  c : Option Nat
  clean : Bool
  subs : List (List Char × Nat)
  cons : List String
  sseq : Nat
deriving DecidableEq, Repr

/-- The state the session-binding block of mqttProcessConnect operates on:
the account's sessions map (client-ID keyed), the live connections (keyed
by identity), and the ordered log of closeConnection calls with their
reasons. -/
structure MqttAsmState where
  sessions : List (String × MqttSessionRec)
  conns : List (Nat × MqttConnRec)
  closed : List (Nat × CloseReason)
deriving DecidableEq, Repr

def lookupSession (key : String) : List (String × MqttSessionRec) → Option MqttSessionRec
  | [] => none
  | (k, v) :: rest => if k = key then some v else lookupSession key rest

def insertSession (key : String) (v : MqttSessionRec) (l : List (String × MqttSessionRec)) :
    List (String × MqttSessionRec) :=
  (key, v) :: l.filter (fun p => p.1 ≠ key)

def lookupConn (id : Nat) : List (Nat × MqttConnRec) → Option MqttConnRec
  | [] => none
  | (k, v) :: rest => if k = id then some v else lookupConn id rest

/-- Setting ec.mqtt.cp.will = nil on connection ec before it is closed. -/
def clearWill (id : Nat) (l : List (Nat × MqttConnRec)) : List (Nat × MqttConnRec) :=
  l.map (fun p => if p.1 = id then (p.1, ⟨false⟩) else p)

/-- asm.clearSession (mqtt.go): delete the session's JS consumers, empty
its subscription map and delete its persisted record (sseq back to 0); the
session's bound connection is not touched. -/
def clearSession (es : MqttSessionRec) : MqttSessionRec :=
  { es with cons := [], subs := [], sseq := 0 }

/-- The session-binding block of mqttProcessConnect (mqtt.go), run under
the account session manager's lock.  For an existing session: the session
is cleared first when either side requests a clean session; if an old
client ec is still bound, its Will is removed and it is closed with reason
DuplicateClientID; the session is then bound to the new client, its clean
flag updated, and its consumers transferred away (es.cons = nil).  For an
unknown client ID a fresh session bound to the new client is created. -/
def mqttProcessConnectBind (st : MqttAsmState) (clientID : String) (nc : Nat)
    (cleanSess : Bool) : MqttAsmState :=
  match lookupSession clientID st.sessions with
  | some es =>
      let es1 := if cleanSess || es.clean then clearSession es else es
      let es2 := { es1 with c := some nc, clean := cleanSess, cons := [] }
      match es1.c with
      | some ec =>
          ⟨insertSession clientID es2 st.sessions, clearWill ec st.conns,
           st.closed ++ [(ec, CloseReason.duplicateClientID)]⟩
      | none => ⟨insertSession clientID es2 st.sessions, st.conns, st.closed⟩
  | none =>
      ⟨insertSession clientID (⟨some nc, cleanSess, [], [], 0⟩ : MqttSessionRec) st.sessions,
       st.conns, st.closed⟩

lemma lookupSession_insert_self (key : String) (v : MqttSessionRec)
    (l : List (String × MqttSessionRec)) :
    lookupSession key (insertSession key v l) = some v := by
  unfold insertSession
  rw [lookupSession, if_pos rfl]

lemma lookupConn_clearWill_self (id : Nat) (l : List (Nat × MqttConnRec))
    (cr : MqttConnRec) (h : lookupConn id l = some cr) :
    lookupConn id (clearWill id l) = some ⟨false⟩ := by
  induction l with
  | nil => simp [lookupConn] at h
  | cons p rest ih =>
      obtain ⟨k, v⟩ := p
      by_cases hk : k = id
      · simp only [clearWill, List.map_cons, if_pos hk]
        rw [lookupConn, if_pos hk]
      · simp only [clearWill, List.map_cons, if_neg hk]
        rw [lookupConn, if_neg hk]
        rw [lookupConn, if_neg hk] at h
        exact ih h

/-- C6: when a CONNECT arrives for a client ID whose session already has a
bound connection ec, processing the bind updates the session's back-link
to the new connection (the single bound connection) with the new clean
flag, clears ec's Will before anything is delivered from it, and closes ec
with the DuplicateClientID reason. -/
theorem mqttConnectTakeover (st : MqttAsmState) (clientID : String) (nc ec : Nat)
    (cleanSess : Bool) (es : MqttSessionRec) (cr : MqttConnRec)
    (hes : lookupSession clientID st.sessions = some es)
    (hec : es.c = some ec)
    (hconn : lookupConn ec st.conns = some cr) :
    (∃ es', lookupSession clientID (mqttProcessConnectBind st clientID nc cleanSess).sessions
        = some es' ∧ es'.c = some nc ∧ es'.clean = cleanSess ∧ es'.cons = [])
  ∧ lookupConn ec (mqttProcessConnectBind st clientID nc cleanSess).conns = some ⟨false⟩
  ∧ (ec, CloseReason.duplicateClientID) ∈ (mqttProcessConnectBind st clientID nc cleanSess).closed
  := by
  have hes1c : (if cleanSess || es.clean then clearSession es else es).c = some ec := by
    split_ifs
    · rw [show (clearSession es).c = es.c from rfl, hec]
    · exact hec
  have hstep : mqttProcessConnectBind st clientID nc cleanSess
      = ⟨insertSession clientID ({ (if cleanSess || es.clean then clearSession es else es) with c := some nc, clean := cleanSess, cons := [] }) st.sessions, clearWill ec st.conns, st.closed ++ [(ec, CloseReason.duplicateClientID)]⟩ := by
    simp only [mqttProcessConnectBind, hes]
    rw [hes1c]
  rw [hstep]
  refine ⟨⟨_, lookupSession_insert_self clientID _ st.sessions, rfl, rfl, rfl⟩, ?_, ?_⟩
  · exact lookupConn_clearWill_self ec st.conns cr hconn
  · simp

theorem mqttConnectTakeover_witness :
    (∃ es', lookupSession "me" (mqttProcessConnectBind
          ⟨[("me", ⟨some 1, false, [], [], 0⟩)], [(1, ⟨true⟩)], []⟩ "me" 2 false).sessions
        = some es' ∧ es'.c = some 2 ∧ es'.clean = false ∧ es'.cons = [])
  ∧ lookupConn 1 (mqttProcessConnectBind
        ⟨[("me", ⟨some 1, false, [], [], 0⟩)], [(1, ⟨true⟩)], []⟩ "me" 2 false).conns
      = some ⟨false⟩
  ∧ (1, CloseReason.duplicateClientID) ∈ (mqttProcessConnectBind
        ⟨[("me", ⟨some 1, false, [], [], 0⟩)], [(1, ⟨true⟩)], []⟩ "me" 2 false).closed :=
  mqttConnectTakeover ⟨[("me", ⟨some 1, false, [], [], 0⟩)], [(1, ⟨true⟩)], []⟩ "me" 2 1 false
    ⟨some 1, false, [], [], 0⟩ ⟨true⟩ (by decide) (by decide) (by decide)

end MqttVerify
